import Mathlib

/-!
Verification of the graph-sample encoding and batching pipeline of the
`deep` repository (graph loaders, label encoders, sample builders, batch
collators and the distance-estimator model façade).

Numeric tensors are modelled over `ℚ` (and over `ℝ` for the one operation
that takes a square root); integer tensors over `ℕ`/`ℤ`; lists stand for
1-D tensors and lists of pairs for `edge_index` columns.  Each definition
is a shallow embedding of a concrete function of the source, cited in its
doc comment.
-/

namespace Deep

/-- `torch.clamp(x, min=lo, max=hi)`: the max bound is applied last. -/
def clampQ (lo hi x : ℚ) : ℚ := min hi (max lo x)

/-- `TWO_48_MINUS_1 = float(2**48 - 1)` from
`src/lib/gnn_handler/src/models/distance_estimator.py` line 8 and
`src/lib/RL/utils.py` line 34. -/
def TWO_48_MINUS_1 : ℚ := 2 ^ 48 - 1

/-- Scalar-ID node normalization of `DistanceEstimator._encode`
(`distance_estimator.py` lines 117-118, `RL/utils.py` line 110):
`(raw / TWO_48_MINUS_1).clamp(0.0, 1.0)`. -/
def encodeScalar (x : ℚ) : ℚ := clampQ 0 1 (x / TWO_48_MINUS_1)

/-- Node-id normalization of `OnnxDistanceEstimatorWrapperIds._encode_raw`
(`distance_estimator.py` line 188): `torch.clamp(node_ids_f32 / TWO_48_MINUS_1, 0, 1)`. -/
def wrapperIdsNorm (x : ℚ) : ℚ := clampQ 0 1 (x / TWO_48_MINUS_1)

/-- Node-id normalization of `OnnxDistanceEstimatorWrapper._encode_raw`
(`RL/utils.py` line 188): `torch.clamp((node_ids.float() + 2.0) / TWO_48_MINUS_1, 0.0, 1.0)`. -/
def wrapperRLNorm (x : ℚ) : ℚ := clampQ 0 1 ((x + 2) / TWO_48_MINUS_1)

/-- One collated graph tensor bundle as fed to the encoders: per-node raw
features (`α` is `ℚ` node ids on the scalar path, `List ℚ` bit rows on the
bitmask path), `edge_index` columns, `edge_attr` rows, and the per-node
batch-membership vector. -/
structure GraphInput (α : Type) where
  nodes : List α
  edges : List (ℕ × ℕ)
  edgeAttr : List ℚ
  batch : List ℕ

/-- Entries of `x` belonging to graph `g` of the batch (the rows scattered
to output index `g` by the membership vector). -/
def groupVals (x : List ℚ) (batch : List ℕ) (g : ℕ) : List ℚ :=
  ((x.zip batch).filter (fun p => p.2 == g)).map Prod.fst

/-- `batch.max() + 1`: the number of graphs in the batch, as computed both
by the wrappers' `_global_mean` and by `global_mean_pool`'s default size. -/
def numGraphs (batch : List ℕ) : ℕ := batch.foldl max 0 + 1

/-- `torch_geometric.nn.global_mean_pool(x, batch)` — external collaborator,
modelled from its documented semantics (scatter-mean; an empty group yields
0) — as used by `DistanceEstimator._encode`. -/
def globalMeanPool (x : List ℚ) (batch : List ℕ) : List ℚ :=
  (List.range (numGraphs batch)).map fun g =>
    if (groupVals x batch g).length = 0 then 0
    else (groupVals x batch g).sum / (groupVals x batch g).length

/-- `_global_mean` of the ONNX wrappers (`distance_estimator.py` lines
178-184 and 250-256, `RL/utils.py` lines 174-183): per-graph sums divided
by per-graph counts clamped below by 1; the one-hot matmul and `index_add`
formulations both compute exactly these sums and counts. -/
def wrapperGlobalMean (x : List ℚ) (batch : List ℕ) : List ℚ :=
  (List.range (numGraphs batch)).map fun g =>
    (groupVals x batch g).sum / max ((groupVals x batch g).length : ℚ) 1

/-- Elementwise `F.relu`. -/
def reluL (x : List ℚ) : List ℚ := x.map fun v => max v 0

/-- `DistanceEstimator._encode` (`distance_estimator.py` lines 110-124,
`RL/utils.py` lines 108-115) with the learned sub-modules abstracted:
`emb` is `id_mlp` precomposed with the node-feature preparation, `edgemlp`
is `edge_mlp` applied row-wise, `conv1`/`conv2` are the GINE convolutions
(external collaborators, shared object-identical with the ONNX wrappers). -/
def coreEncode {α : Type} (emb : α → ℚ) (edgemlp : ℚ → ℚ)
    (conv1 conv2 : List ℚ → List (ℕ × ℕ) → List ℚ → List ℚ)
    (g : GraphInput α) : List ℚ :=
  let x := g.nodes.map emb
  let e := g.edgeAttr.map edgemlp
  let x1 := reluL (conv1 x g.edges e)
  let x2 := reluL (conv2 x1 g.edges e)
  globalMeanPool x2 g.batch

/-- `_encode_raw` of the ONNX wrappers: the identical convolution pipeline,
pooled with the wrappers' `_global_mean` instead of `global_mean_pool`. -/
def wrapperEncode {α : Type} (emb : α → ℚ) (edgemlp : ℚ → ℚ)
    (conv1 conv2 : List ℚ → List (ℕ × ℕ) → List ℚ → List ℚ)
    (g : GraphInput α) : List ℚ :=
  let x := g.nodes.map emb
  let e := g.edgeAttr.map edgemlp
  let x1 := reluL (conv1 x g.edges e)
  let x2 := reluL (conv2 x1 g.edges e)
  wrapperGlobalMean x2 g.batch

/-- Depth column built by the in-process forward passes: the raw supplied
values, or a zero vector of batch length when no depth is supplied
(`distance_estimator.py` lines 134-139, `RL/utils.py` lines 128-134). -/
def depthColumn (B : ℕ) (depth : Option (List ℚ)) : List ℚ :=
  match depth with
  | none => List.replicate B 0
  | some d => d

/-- `DistanceEstimator.forward` of gnn_handler (`distance_estimator.py`
lines 126-143): state/goal encodings concatenated per graph, the raw depth
column appended when `use_depth`, the regressor head applied row-wise and
the output clamped to `[min_value, 1 − min_value]`. -/
def gnnForward {α : Type} (minv : ℚ) (emb : α → ℚ) (edgemlp : ℚ → ℚ)
    (conv1 conv2 gconv1 gconv2 : List ℚ → List (ℕ × ℕ) → List ℚ → List ℚ)
    (reg : List ℚ → ℚ) (useGoal useDepth : Bool)
    (state : GraphInput α) (goal : Option (GraphInput α))
    (depth : Option (List ℚ)) : List ℚ :=
  let s := coreEncode emb edgemlp conv1 conv2 state
  let rep : List (List ℚ) :=
    match useGoal, goal with
    | true, some gg =>
        (s.zip (coreEncode emb edgemlp gconv1 gconv2 gg)).map fun p => [p.1, p.2]
    | _, _ => s.map fun v => [v]
  let rep2 :=
    if useDepth then
      (rep.zip (depthColumn rep.length depth)).map fun p => p.1 ++ [p.2]
    else rep
  (rep2.map reg).map (clampQ minv (1 - minv))

/-- `DistanceEstimator.forward` of `RL/utils.py` (lines 118-139): same
pipeline as the gnn_handler forward but with no final output clamp. -/
def rlForward {α : Type} (emb : α → ℚ) (edgemlp : ℚ → ℚ)
    (conv1 conv2 gconv1 gconv2 : List ℚ → List (ℕ × ℕ) → List ℚ → List ℚ)
    (reg : List ℚ → ℚ) (useGoal useDepth : Bool)
    (state : GraphInput α) (goal : Option (GraphInput α))
    (depth : Option (List ℚ)) : List ℚ :=
  let s := coreEncode emb edgemlp conv1 conv2 state
  let rep : List (List ℚ) :=
    match useGoal, goal with
    | true, some gg =>
        (s.zip (coreEncode emb edgemlp gconv1 gconv2 gg)).map fun p => [p.1, p.2]
    | _, _ => s.map fun v => [v]
  let rep2 :=
    if useDepth then
      (rep.zip (depthColumn rep.length depth)).map fun p => p.1 ++ [p.2]
    else rep
  rep2.map reg

/-- `forward` of the gnn_handler ONNX wrapper modules
(`distance_estimator.py` lines 195-241 and 265-309; the Ids and Bits bodies
are identical apart from `_encode_raw`'s first line, abstracted by `emb`):
the goal branch is taken when `use_goal` holds and the goal node tensor is
nonempty, an absent or empty depth is replaced by zeros, and the output is
clamped to `[min_value, 1 − min_value]`. -/
def onnxForward {α : Type} (minv : ℚ) (emb : α → ℚ) (edgemlp : ℚ → ℚ)
    (conv1 conv2 gconv1 gconv2 : List ℚ → List (ℕ × ℕ) → List ℚ → List ℚ)
    (reg : List ℚ → ℚ) (useGoal useDepth : Bool)
    (state : GraphInput α) (goal : Option (GraphInput α))
    (depth : Option (List ℚ)) : List ℚ :=
  let s := wrapperEncode emb edgemlp conv1 conv2 state
  let rep : List (List ℚ) :=
    match goal with
    | some gg =>
        if useGoal && !gg.nodes.isEmpty then
          (s.zip (wrapperEncode emb edgemlp gconv1 gconv2 gg)).map fun p => [p.1, p.2]
        else s.map fun v => [v]
    | none => s.map fun v => [v]
  let rep2 :=
    if useDepth then
      let d := match depth with
        | none => List.replicate rep.length 0
        | some [] => List.replicate rep.length 0
        | some dv => dv
      (rep.zip d).map fun p => p.1 ++ [p.2]
    else rep
  (rep2.map reg).map (clampQ minv (1 - minv))

/-- gnn_handler scalar-ID in-process forward: `_encode`'s scalar branch
feeds `encodeScalar` of each node id to `id_mlp`. -/
def gnnScalarForward (minv : ℚ) (idmlp edgemlp : ℚ → ℚ)
    (conv1 conv2 gconv1 gconv2 : List ℚ → List (ℕ × ℕ) → List ℚ → List ℚ)
    (reg : List ℚ → ℚ) (useGoal useDepth : Bool)
    (state : GraphInput ℚ) (goal : Option (GraphInput ℚ))
    (depth : Option (List ℚ)) : List ℚ :=
  gnnForward minv (fun v => idmlp (encodeScalar v)) edgemlp
    conv1 conv2 gconv1 gconv2 reg useGoal useDepth state goal depth

/-- `OnnxDistanceEstimatorWrapperIds.forward`: node ids normalized by
`wrapperIdsNorm` before `id_mlp`. -/
def onnxIdsForward (minv : ℚ) (idmlp edgemlp : ℚ → ℚ)
    (conv1 conv2 gconv1 gconv2 : List ℚ → List (ℕ × ℕ) → List ℚ → List ℚ)
    (reg : List ℚ → ℚ) (useGoal useDepth : Bool)
    (state : GraphInput ℚ) (goal : Option (GraphInput ℚ))
    (depth : Option (List ℚ)) : List ℚ :=
  onnxForward minv (fun v => idmlp (wrapperIdsNorm v)) edgemlp
    conv1 conv2 gconv1 gconv2 reg useGoal useDepth state goal depth

/-- `RL/utils.py` scalar in-process forward (`DistanceEstimator.forward`,
lines 118-139). -/
def rlScalarForward (idmlp edgemlp : ℚ → ℚ)
    (conv1 conv2 gconv1 gconv2 : List ℚ → List (ℕ × ℕ) → List ℚ → List ℚ)
    (reg : List ℚ → ℚ) (useGoal useDepth : Bool)
    (state : GraphInput ℚ) (goal : Option (GraphInput ℚ))
    (depth : Option (List ℚ)) : List ℚ :=
  rlForward (fun v => idmlp (encodeScalar v)) edgemlp
    conv1 conv2 gconv1 gconv2 reg useGoal useDepth state goal depth

/-- `OnnxDistanceEstimatorWrapper._encode_raw` of `RL/utils.py` (lines
186-195): node ids shifted by +2.0 before normalization. -/
def rlWrapperEncode (idmlp edgemlp : ℚ → ℚ)
    (conv1 conv2 : List ℚ → List (ℕ × ℕ) → List ℚ → List ℚ)
    (g : GraphInput ℚ) : List ℚ :=
  wrapperEncode (fun v => idmlp (wrapperRLNorm v)) edgemlp conv1 conv2 g

/-- `DistanceEstimator._encode`'s scalar branch as a stand-alone encoder
(`distance_estimator.py` lines 110-124, `RL/utils.py` lines 108-115). -/
def coreScalarEncode (idmlp edgemlp : ℚ → ℚ)
    (conv1 conv2 : List ℚ → List (ℕ × ℕ) → List ℚ → List ℚ)
    (g : GraphInput ℚ) : List ℚ :=
  coreEncode (fun v => idmlp (encodeScalar v)) edgemlp conv1 conv2 g

/-- Depth normalization of the auxiliary prediction-script model
(`src/lib/RL/make_prediction.py`, `DistanceEstimator.forward` lines
224-231): `(depth - depth.mean()) / (depth.std(unbiased=False) + 1e-6)`,
the population standard deviation being `sqrt(mean((x - mean)^2))`. -/
noncomputable def normalizeDepth (d : List ℝ) : List ℝ :=
  let m := d.sum / d.length
  let s := Real.sqrt ((d.map fun x => (x - m) ^ 2).sum / d.length)
  d.map fun x => (x - m) / (s + 1e-6)

/-! ### Batch collation of `preprocess_for_onnx` -/

/-- One parsed sample as seen by `preprocess_for_onnx`
(`gnn_handler/src/utils.py` lines 672-692, `RL/utils.py` lines 884-915):
its parsed node count (`n_feat.size(0)`) and its `edge_index` columns. -/
structure OnnxSample where
  n : ℕ
  edges : List (ℕ × ℕ)

/-- The concatenated `state_edge_index` built by `preprocess_for_onnx`'s
loop: each sample's edges offset by the running node count `cum_state`
(`e_idx + cum_state`), then concatenated with `torch.cat(..., dim=1)`.
(The `if e_idx.numel() > 0` guard of the gnn_handler version is a no-op on
an empty edge list.) -/
def collateEdgeIndex : ℕ → List OnnxSample → List (ℕ × ℕ)
  | _, [] => []
  | cum, s :: rest =>
      (s.edges.map fun e => (e.1 + cum, e.2 + cum)) ++ collateEdgeIndex (cum + s.n) rest

/-- Total node count `Σ nᵢ` of a sample list. -/
def totalNodes (ss : List OnnxSample) : ℕ := (ss.map OnnxSample.n).sum

/-- `Σ (n₁..n_{i-1})`: nodes contributed by the samples before index `i`. -/
def prefixNodes (ss : List OnnxSample) (i : ℕ) : ℕ :=
  ((ss.take i).map OnnxSample.n).sum

/-- Number of edge columns contributed by the samples before index `i`
(the start of sample `i`'s slice in the concatenated edge index). -/
def prefixEdges (ss : List OnnxSample) (i : ℕ) : ℕ :=
  ((ss.take i).map fun s => s.edges.length).sum

/-! ### Batch collator goal handling (`graph_collate_fn`) -/

/-- Outcome classes of Python dict/list access in `graph_collate_fn`. -/
inductive CollateErr
  | keyError
  | indexError
deriving DecidableEq, Repr

/-- `[b["goal_graph"] for b in batch]`: the comprehension evaluates the
samples in order and raises `KeyError` at the first sample lacking the
key. -/
def goalList {α : Type} : List (Option α) → Except CollateErr (List α)
  | [] => .ok []
  | none :: _ => .error .keyError
  | some g :: rest => (goalList rest).map (g :: ·)

/-- Goal handling of `graph_collate_fn` (`gnn_handler/src/utils.py` lines
286-308, `RL/utils.py` lines 706-730): samples are represented by their
optional `goal_graph` entry.  The code tests `"goal_graph" in batch[0]`
(an `IndexError` on an empty batch) and, if the first sample has the key,
evaluates `[b["goal_graph"] for b in batch]` (a `KeyError` at the first
sample lacking it); otherwise the collated goal entry is `None`. -/
def collateGoals {α : Type} (batch : List (Option α)) :
    Except CollateErr (Option (List α)) :=
  match batch with
  | [] => .error .indexError
  | b0 :: _ =>
      match b0 with
      | some _ => (goalList batch).map some
      | none => .ok none

/-! ### Checkpoint loading (`DistanceEstimator.load_model`) -/

/-- A checkpoint's `config` dict as read by `load_model`
(`distance_estimator.py` lines 156-169): each field is `none` when the key
is absent.  For `bit_input` the stored value may itself be Python `None`
(the scalar-ID path), hence the nested option. -/
structure CkptConfig where
  hidden_dim : Option ℕ
  use_goal : Option Bool
  use_depth : Option Bool
  node_emb_dim : Option ℕ
  edge_emb_dim : Option ℕ
  bit_input : Option (Option ℕ)

/-- The constructor arguments with which `load_model` rebuilds the model. -/
structure ModelArch where
  hidden_dim : ℕ
  use_goal : Bool
  use_depth : Bool
  node_emb_dim : ℕ
  edge_emb_dim : ℕ
  bit_input : Option ℕ
deriving DecidableEq, Repr

/-- Errors surfaced by `load_model`. -/
inductive LoadErr
  | keyError
  | sizeMismatch
deriving DecidableEq, Repr

/-- `cfg["k"]`: raises `KeyError` when the key is absent. -/
def requireKey {β : Type} (x : Option β) : Except LoadErr β :=
  match x with
  | some v => .ok v
  | none => .error .keyError

/-- The config reads of `DistanceEstimator.load_model`
(`distance_estimator.py` lines 156-166): `cfg["hidden_dim"]`,
`cfg["use_goal"]`, `cfg.get("use_depth", True)`, `cfg["node_emb_dim"]`,
`cfg["edge_emb_dim"]`, `cfg.get("bit_input", None)`. -/
def loadModelConfig (cfg : CkptConfig) : Except LoadErr ModelArch := do
  let hd ← requireKey cfg.hidden_dim
  let ug ← requireKey cfg.use_goal
  let ud := cfg.use_depth.getD true
  let ne ← requireKey cfg.node_emb_dim
  let ee ← requireKey cfg.edge_emb_dim
  let bi := cfg.bit_input.getD none
  pure ⟨hd, ug, ud, ne, ee, bi⟩

/-- The weight shapes determined by an architecture, as far as
`load_state_dict` (strict mode) compares them: `id_mlp` input width
(`bit_input` or 1, `distance_estimator.py` line 55), embedding dims, and
the regressor input width (line 102). -/
def archShape (a : ModelArch) : ℕ × ℕ × ℕ × ℕ × ℕ :=
  (a.bit_input.getD 1, a.node_emb_dim, a.edge_emb_dim, a.hidden_dim,
    a.hidden_dim * (if a.use_goal then 2 else 1) + (if a.use_depth then 1 else 0))

/-- `load_model`: reconstruct the architecture from config, then
`load_state_dict` the checkpoint weights, whose shapes are summarized by
`wshape`; a mismatch raises a size-mismatch `RuntimeError`. -/
def loadModel (cfg : CkptConfig) (wshape : ℕ × ℕ × ℕ × ℕ × ℕ) :
    Except LoadErr ModelArch := do
  let arch ← loadModelConfig cfg
  if archShape arch = wshape then pure arch else .error .sizeMismatch

/-! ### Bitmask label encoding -/

/-- Python's `\w` (ASCII range, as relevant to DOT files): letters, digits
and underscore. -/
def isWordChar (c : Char) : Bool := c.isAlphanum || c == '_'

/-- A character that defeats the `(?<![\w"])` / `(?![\w"])` guards of
`_NEG_ID_RE` (`RL/utils.py` line 559). -/
def blocksNegId (c : Char) : Bool := isWordChar c || c == '"'

/-- The lookahead `(?![\w"])` at the head of the remaining input. -/
def nextOk : List Char → Bool
  | [] => true
  | c :: _ => !blocksNegId c

/-- `_NEG_ID_RE.sub(lambda m: f'"{m.group(0)}"', src)` (`RL/utils.py`
lines 559-565): scan left to right; at a position whose preceding original
character is not a word character or a quote (`pOk`), a `-` followed by a
maximal nonempty digit run not followed by a word character or quote is a
match and is wrapped in quotes; scanning resumes after the matched token,
whose last original character is a digit (so the lookbehind is blocked
there, as in `re.sub`, which matches against the original text). -/
def requoteAux (pOk : Bool) : List Char → List Char
  | [] => []
  | c :: rest =>
      if c == '-' && pOk && !(rest.takeWhile Char.isDigit).isEmpty
          && nextOk (rest.dropWhile Char.isDigit) then
        '"' :: '-' :: (rest.takeWhile Char.isDigit
          ++ '"' :: requoteAux false (rest.dropWhile Char.isDigit))
      else
        c :: requoteAux (!blocksNegId c) rest
  termination_by l => l.length
  decreasing_by
  · simpa using Nat.lt_succ_of_le (List.dropWhile_sublist _).length_le
  · simp

/-- The full substitution applied to a file's text (start of string: the
lookbehind is vacuously satisfied). -/
def requote (src : List Char) : List Char := requoteAux true src

/-- `True` iff the text still contains a bare negative-integer token, i.e.
a match of `_NEG_ID_RE`, when scanned with initial lookbehind state
`pOk`. -/
def hasBareNeg (pOk : Bool) : List Char → Bool
  | [] => false
  | c :: rest =>
      (c == '-' && pOk && !(rest.takeWhile Char.isDigit).isEmpty
        && nextOk (rest.dropWhile Char.isDigit))
      || hasBareNeg (!blocksNegId c) rest

/-- Is `needle` a contiguous substring of `hay` (Python's `in`)? -/
def containsSub (needle : List Char) : List Char → Bool
  | [] => needle.isEmpty
  | c :: rest => needle.isPrefixOf (c :: rest) || containsSub needle rest

/-- Text handed to the structural parser by the gnn_handler loader
(`gnn_handler/src/utils.py` lines 81-84): `_load_dot` reads the file and
passes it to `pydot.graph_from_dot_data` unchanged. -/
def gnnLoadText (src : List Char) : List Char := src

/-- Text handed to the structural parser by the RL loader
(`RL/utils.py` lines 562-567): the substitution runs only when
`quote_neg` is set. -/
def rlLoadText (quoteNeg : Bool) (src : List Char) : List Char :=
  if quoteNeg then requote src else src

/-- State-graph load of `preprocess_sample` (`RL/utils.py` lines 669-670):
`fix = "merged" in state_path; Gs = _load_dot(Path(state_path), fix)`. -/
def rlStateLoadText (statePath src : List Char) : List Char :=
  rlLoadText (containsSub "merged".toList statePath) src

/-- Goal-graph load of `preprocess_sample` (`RL/utils.py` line 691):
`_load_dot(Path(goal_path), True)`. -/
def rlGoalLoadText (src : List Char) : List Char :=
  rlLoadText true src

end Deep

namespace Deep

/-- The wrappers' `_global_mean` agrees with `global_mean_pool`: for a
nonempty group the count clamp is inactive, and an empty group yields 0 on
both sides. -/
theorem wrapperGlobalMean_eq_globalMeanPool (x : List ℚ) (batch : List ℕ) :
    wrapperGlobalMean x batch = globalMeanPool x batch := by
  unfold wrapperGlobalMean globalMeanPool
  refine List.map_congr_left fun g _ => ?_
  by_cases h : (groupVals x batch g).length = 0
  · rw [List.length_eq_zero] at h
    simp [h]
  · have h1 : (1:ℚ) ≤ (groupVals x batch g).length := by
      have := Nat.one_le_iff_ne_zero.mpr h
      exact_mod_cast this
    rw [if_neg h, max_eq_left h1]

/-- `_encode_raw` with the same sub-modules and the same node-feature map
agrees with `_encode`. -/
theorem wrapperEncode_eq_coreEncode {α : Type} (emb : α → ℚ) (edgemlp : ℚ → ℚ)
    (conv1 conv2 : List ℚ → List (ℕ × ℕ) → List ℚ → List ℚ) (g : GraphInput α) :
    wrapperEncode emb edgemlp conv1 conv2 g = coreEncode emb edgemlp conv1 conv2 g := by
  unfold wrapperEncode coreEncode
  exact wrapperGlobalMean_eq_globalMeanPool _ _

/-- `clampQ lo hi` lands in `[lo, hi]` whenever `lo ≤ hi`. -/
theorem clampQ_mem (lo hi x : ℚ) (h : lo ≤ hi) :
    lo ≤ clampQ lo hi x ∧ clampQ lo hi x ≤ hi :=
  ⟨le_min h (le_max_left lo x), min_le_left hi _⟩

end Deep

/-- C6: for every non-negative integer node label `n ≤ 2^48 − 1`, the
normalized SCALAR_ID (or HASHED) representation `encodeScalar n` lies in
`[0, 1]`; label `0` maps exactly to `0` and label `2^48 − 1` exactly to `1`. -/
theorem c6_scalar_norm_bounded (n : ℕ) (h : (n : ℚ) ≤ 2 ^ 48 - 1) :
    (0 ≤ Deep.encodeScalar n ∧ Deep.encodeScalar n ≤ 1) ∧
      Deep.encodeScalar 0 = 0 ∧ Deep.encodeScalar (2 ^ 48 - 1) = 1 := by
  refine ⟨⟨?_, ?_⟩, ?_, ?_⟩
  · simp only [Deep.encodeScalar, Deep.clampQ]
    exact le_min (by norm_num) (le_max_left 0 _)
  · simp only [Deep.encodeScalar, Deep.clampQ]
    exact min_le_left 1 _
  · simp [Deep.encodeScalar, Deep.clampQ, Deep.TWO_48_MINUS_1]
  · simp only [Deep.encodeScalar, Deep.clampQ, Deep.TWO_48_MINUS_1]
    norm_num

/-- Witness for C6 at the concrete label `n = 5`. -/
theorem c6_scalar_norm_bounded_witness :
    ((5:ℕ) : ℚ) ≤ 2 ^ 48 - 1 ∧
      ((0 ≤ Deep.encodeScalar 5 ∧ Deep.encodeScalar 5 ≤ 1) ∧
        Deep.encodeScalar 0 = 0 ∧ Deep.encodeScalar (2 ^ 48 - 1) = 1) :=
  ⟨by norm_num, c6_scalar_norm_bounded 5 (by norm_num)⟩

/-- C1 counterexample: in the cited `DistanceEstimator.forward`
(`RL/utils.py` lines 118-139, modelled by `rlScalarForward`), a supplied
batch of uniform depth 5 (batch size 1) is fed to the regressor head raw:
with a regressor projecting onto the depth coordinate the output is 5, not
the 0 the claim requires. -/
theorem c1_counterexample :
    Deep.rlScalarForward id id (fun x _ _ => x) (fun x _ _ => x)
        (fun x _ _ => x) (fun x _ _ => x) (fun r => r.getLastD 0)
        false true ⟨[0], [], [], [0]⟩ none (some [5]) = [5] ∧ (5 : ℚ) ≠ 0 := by
  constructor
  · decide
  · norm_num

/-- C1 (amended): the forward passes cited by the spec
(`DistanceEstimator.forward` in `distance_estimator.py` and `RL/utils.py`)
feed a supplied depth vector to the regressor head raw — no mean/std
normalization — substituting zeros only when depth is absent; the per-batch
normalization described by the claim exists only in the auxiliary
`make_prediction.py` model, where a uniform-depth batch (any size ≥ 1)
indeed normalizes to exactly 0 with no NaN (the epsilon keeps the
denominator positive). -/
theorem c1_depth_handling (n : ℕ) (hn : 0 < n) (x : ℝ) (d : List ℚ) :
    Deep.normalizeDepth (List.replicate n x) = List.replicate n 0 ∧
      Deep.depthColumn d.length (some d) = d := by
  refine ⟨?_, rfl⟩
  have hn' : (n : ℝ) ≠ 0 := Nat.cast_ne_zero.mpr hn.ne'
  unfold Deep.normalizeDepth
  have hm : (List.replicate n x).sum / ((List.replicate n x).length : ℝ) = x := by
    rw [List.sum_replicate, List.length_replicate, nsmul_eq_mul]
    field_simp
  rw [List.map_replicate, hm]
  simp

/-- Witness for C1's amended theorem at batch size 1, depth 5. -/
theorem c1_depth_handling_witness :
    0 < 1 ∧
      (Deep.normalizeDepth (List.replicate 1 (5 : ℝ)) = List.replicate 1 0 ∧
        Deep.depthColumn [(5 : ℚ)].length (some [5]) = [5]) :=
  ⟨by norm_num, c1_depth_handling 1 (by norm_num) 5 [5]⟩

/-- C3 counterexample: at node id 0 the RL ONNX wrapper's `_encode_raw`
(`RL/utils.py` lines 186-195) does not apply the in-process normalization:
it adds 2.0 to the id before dividing, so its normalized value at 0 is
2/(2^48−1) where the in-process encoder produces 0, and the two encoders
disagree on a one-node graph even with identical sub-modules. -/
theorem c3_counterexample :
    Deep.wrapperRLNorm 0 ≠ Deep.encodeScalar 0 ∧
      Deep.rlWrapperEncode id id (fun x _ _ => x) (fun x _ _ => x)
          ⟨[0], [], [], [0]⟩
        ≠ Deep.coreScalarEncode id id (fun x _ _ => x) (fun x _ _ => x)
          ⟨[0], [], [], [0]⟩ := by
  have hpos : (0 : ℚ) ≤ 2 / (2 ^ 48 - 1) := by positivity
  have hne : (2 : ℚ) / (2 ^ 48 - 1) ≠ 0 :=
    (show (0 : ℚ) < 2 / (2 ^ 48 - 1) by positivity).ne'
  have e1 : Deep.wrapperRLNorm 0 = 2 / (2 ^ 48 - 1) := by
    unfold Deep.wrapperRLNorm Deep.clampQ Deep.TWO_48_MINUS_1
    rw [zero_add, max_eq_right hpos, min_eq_right (by norm_num)]
  have e2 : Deep.encodeScalar 0 = 0 := by
    unfold Deep.encodeScalar Deep.clampQ Deep.TWO_48_MINUS_1
    rw [zero_div, max_self, min_eq_right (by norm_num)]
  refine ⟨by rw [e1, e2]; exact hne, ?_⟩
  have h2 : Deep.rlWrapperEncode id id (fun x _ _ => x) (fun x _ _ => x)
      ⟨[0], [], [], [0]⟩ = [2 / (2 ^ 48 - 1)] := by
    unfold Deep.rlWrapperEncode Deep.wrapperEncode Deep.wrapperGlobalMean
      Deep.numGraphs Deep.groupVals Deep.reluL
    simp [e1, max_eq_left hpos, List.range_succ]
  have h3 : Deep.coreScalarEncode id id (fun x _ _ => x) (fun x _ _ => x)
      ⟨[0], [], [], [0]⟩ = [0] := by
    unfold Deep.coreScalarEncode Deep.coreEncode Deep.globalMeanPool
      Deep.numGraphs Deep.groupVals Deep.reluL
    simp [e2, List.range_succ]
  rw [h2, h3]
  simp [hne]

/-- C3 (amended): the gnn_handler export wrapper
(`OnnxDistanceEstimatorWrapperIds`) computes exactly the same prediction
vector as the in-process gnn_handler forward pass on the same underlying
inputs — its node-id normalization (divide by 2^48−1 and clamp to [0,1])
is identical to the in-process encoder's and its `_global_mean` agrees
with `global_mean_pool` — provided a supplied goal graph has at least one
node and a supplied depth vector is nonempty (the wrapper tests
`numel() > 0` where the core tests for `None`).  The `RL/utils.py` wrapper
does not satisfy this: it shifts node ids by +2.0 before normalizing. -/
theorem c3_onnx_ids_matches_core (minv : ℚ) (idmlp edgemlp : ℚ → ℚ)
    (conv1 conv2 gconv1 gconv2 : List ℚ → List (ℕ × ℕ) → List ℚ → List ℚ)
    (reg : List ℚ → ℚ) (useGoal useDepth : Bool)
    (state : Deep.GraphInput ℚ) (goal : Option (Deep.GraphInput ℚ))
    (depth : Option (List ℚ))
    (hg : ∀ gg, goal = some gg → gg.nodes ≠ [])
    (hd : ∀ dv, depth = some dv → dv ≠ []) :
    Deep.onnxIdsForward minv idmlp edgemlp conv1 conv2 gconv1 gconv2 reg
        useGoal useDepth state goal depth
      = Deep.gnnScalarForward minv idmlp edgemlp conv1 conv2 gconv1 gconv2 reg
        useGoal useDepth state goal depth := by
  have hnorm : Deep.wrapperIdsNorm = Deep.encodeScalar := rfl
  rcases goal with _ | gg
  · rcases depth with _ | dv
    · cases useGoal <;> cases useDepth <;>
        simp [Deep.onnxIdsForward, Deep.gnnScalarForward, Deep.onnxForward,
          Deep.gnnForward, Deep.wrapperEncode_eq_coreEncode, hnorm,
          Deep.depthColumn]
    · have hdv : dv ≠ [] := hd dv rfl
      rcases dv with _ | ⟨d0, dtl⟩
      · exact absurd rfl hdv
      · cases useGoal <;> cases useDepth <;>
          simp [Deep.onnxIdsForward, Deep.gnnScalarForward, Deep.onnxForward,
            Deep.gnnForward, Deep.wrapperEncode_eq_coreEncode, hnorm,
            Deep.depthColumn]
  · have hne : gg.nodes ≠ [] := hg gg rfl
    have hemp : gg.nodes.isEmpty = false := by
      cases hnodes : gg.nodes
      · exact absurd hnodes hne
      · rfl
    rcases depth with _ | dv
    · cases useGoal <;> cases useDepth <;>
        simp [Deep.onnxIdsForward, Deep.gnnScalarForward, Deep.onnxForward,
          Deep.gnnForward, Deep.wrapperEncode_eq_coreEncode, hnorm,
          Deep.depthColumn, hemp]
    · have hdv : dv ≠ [] := hd dv rfl
      rcases dv with _ | ⟨d0, dtl⟩
      · exact absurd rfl hdv
      · cases useGoal <;> cases useDepth <;>
          simp [Deep.onnxIdsForward, Deep.gnnScalarForward, Deep.onnxForward,
            Deep.gnnForward, Deep.wrapperEncode_eq_coreEncode, hnorm,
            Deep.depthColumn, hemp]

/-- Witness for C3's amended theorem on a concrete two-node batch with a
goal graph and a depth vector. -/
theorem c3_onnx_ids_matches_core_witness :
    Deep.onnxIdsForward (1/1000) id id (fun x _ _ => x) (fun x _ _ => x)
        (fun x _ _ => x) (fun x _ _ => x) (fun r => r.getLastD 0) true true
        ⟨[0, 3], [(0, 1)], [1], [0, 0]⟩ (some ⟨[7], [], [], [0]⟩) (some [5])
      = Deep.gnnScalarForward (1/1000) id id (fun x _ _ => x) (fun x _ _ => x)
        (fun x _ _ => x) (fun x _ _ => x) (fun r => r.getLastD 0) true true
        ⟨[0, 3], [(0, 1)], [1], [0, 0]⟩ (some ⟨[7], [], [], [0]⟩) (some [5]) :=
  c3_onnx_ids_matches_core (1/1000) id id (fun x _ _ => x) (fun x _ _ => x)
    (fun x _ _ => x) (fun x _ _ => x) (fun r => r.getLastD 0) true true
    ⟨[0, 3], [(0, 1)], [1], [0, 0]⟩ (some ⟨[7], [], [], [0]⟩) (some [5])
    (by intro gg h; cases h; simp) (by intro dv h; cases h; simp)

/-- C10: for every input batch and every choice of sub-modules, each entry
of the prediction vector returned by the gnn_handler
`DistanceEstimator.forward` and by its ONNX wrapper forwards lies in
`[min_value, 1 − min_value]` — the final `out.clamp(min=min_value,
max=1-min_value)` guarantees it whenever `min_value ≤ 1 − min_value`
(default `min_value = 1/1000`). -/
theorem c10_output_clamped {α : Type} (minv : ℚ) (hm : minv ≤ 1 - minv)
    (emb : α → ℚ) (edgemlp : ℚ → ℚ)
    (conv1 conv2 gconv1 gconv2 : List ℚ → List (ℕ × ℕ) → List ℚ → List ℚ)
    (reg : List ℚ → ℚ) (useGoal useDepth : Bool)
    (state : Deep.GraphInput α) (goal : Option (Deep.GraphInput α))
    (depth : Option (List ℚ)) :
    (∀ y ∈ Deep.gnnForward minv emb edgemlp conv1 conv2 gconv1 gconv2 reg
        useGoal useDepth state goal depth, minv ≤ y ∧ y ≤ 1 - minv) ∧
    (∀ y ∈ Deep.onnxForward minv emb edgemlp conv1 conv2 gconv1 gconv2 reg
        useGoal useDepth state goal depth, minv ≤ y ∧ y ≤ 1 - minv) := by
  constructor
  · intro y hy
    obtain ⟨x, -, rfl⟩ := List.mem_map.mp hy
    exact Deep.clampQ_mem minv (1 - minv) x hm
  · intro y hy
    obtain ⟨x, -, rfl⟩ := List.mem_map.mp hy
    exact Deep.clampQ_mem minv (1 - minv) x hm

/-- Witness for C10 at the default `min_value = 1/1000` on a concrete
one-node batch. -/
theorem c10_output_clamped_witness :
    (1 / 1000 : ℚ) ≤ 1 - 1 / 1000 ∧
      ((∀ y ∈ Deep.gnnForward (1 / 1000) (id : ℚ → ℚ) id (fun x _ _ => x)
          (fun x _ _ => x) (fun x _ _ => x) (fun x _ _ => x)
          (fun r => r.getLastD 0) false false ⟨[0], [], [], [0]⟩ none none,
            1 / 1000 ≤ y ∧ y ≤ 1 - 1 / 1000) ∧
        (∀ y ∈ Deep.onnxForward (1 / 1000) (id : ℚ → ℚ) id (fun x _ _ => x)
          (fun x _ _ => x) (fun x _ _ => x) (fun x _ _ => x)
          (fun r => r.getLastD 0) false false ⟨[0], [], [], [0]⟩ none none,
            1 / 1000 ≤ y ∧ y ≤ 1 - 1 / 1000)) :=
  ⟨by norm_num,
    c10_output_clamped (1 / 1000) (by norm_num) id id (fun x _ _ => x)
      (fun x _ _ => x) (fun x _ _ => x) (fun x _ _ => x) (fun r => r.getLastD 0)
      false false ⟨[0], [], [], [0]⟩ none none⟩

/-- Shifting the running node offset of `collateEdgeIndex` shifts every
collated entry by the same amount. -/
theorem collateEdgeIndex_shift (a : ℕ) :
    ∀ (ss : List Deep.OnnxSample) (b : ℕ),
      Deep.collateEdgeIndex (a + b) ss
        = (Deep.collateEdgeIndex b ss).map fun e => (e.1 + a, e.2 + a)
  | [], _ => by simp [Deep.collateEdgeIndex]
  | s :: rest, b => by
      simp only [Deep.collateEdgeIndex, List.map_append, List.map_map]
      rw [show a + b + s.n = a + (b + s.n) by omega,
        collateEdgeIndex_shift a rest (b + s.n)]
      congr 1
      refine List.map_congr_left fun e _ => ?_
      simp only [Function.comp_apply, Prod.mk.injEq]
      omega

/-- All entries of the collated edge index are below the running offset
plus the total node count, provided each sample's edges stay below its own
node count. -/
theorem collateEdgeIndex_bound :
    ∀ (ss : List Deep.OnnxSample) (cum : ℕ),
      (∀ s ∈ ss, ∀ e ∈ s.edges, e.1 < s.n ∧ e.2 < s.n) →
      ∀ e ∈ Deep.collateEdgeIndex cum ss,
        e.1 < cum + Deep.totalNodes ss ∧ e.2 < cum + Deep.totalNodes ss
  | [], _, _, e, he => by simp [Deep.collateEdgeIndex] at he
  | s :: rest, cum, hv, e, he => by
      simp only [Deep.collateEdgeIndex, List.mem_append] at he
      have htot : Deep.totalNodes (s :: rest) = s.n + Deep.totalNodes rest := by
        simp [Deep.totalNodes]
      rcases he with h | h
      · obtain ⟨e0, he0, rfl⟩ := List.mem_map.mp h
        have hb := hv s (by simp) e0 he0
        refine ⟨?_, ?_⟩ <;> (simp only [htot]; omega)
      · have hb := collateEdgeIndex_bound rest (cum + s.n)
          (fun s' hs' => hv s' (by simp [hs'])) e h
        refine ⟨?_, ?_⟩ <;> (simp only [htot]; omega)

/-- Sample `i`'s slice of the collated edge index, with the node-count
prefix sum subtracted from every entry, is exactly sample `i`'s original
edge index. -/
theorem collateEdgeIndex_slice :
    ∀ (ss : List Deep.OnnxSample) (i : ℕ) (hi : i < ss.length),
      (((Deep.collateEdgeIndex 0 ss).drop (Deep.prefixEdges ss i)).take
          ((ss.get ⟨i, hi⟩).edges.length)).map
        (fun e => (e.1 - Deep.prefixNodes ss i, e.2 - Deep.prefixNodes ss i))
      = (ss.get ⟨i, hi⟩).edges
  | [], i, hi => absurd hi (by simp)
  | s :: rest, 0, _ => by
      simp only [Deep.collateEdgeIndex, Deep.prefixEdges, Deep.prefixNodes,
        List.take_zero, List.map_nil, List.sum_nil, List.drop_zero, List.get]
      rw [List.take_left' (by simp)]
      simp
  | s :: rest, i + 1, hi => by
      have hi' : i < rest.length := by simpa using hi
      have hpe : Deep.prefixEdges (s :: rest) (i + 1)
          = s.edges.length + Deep.prefixEdges rest i := by
        simp [Deep.prefixEdges]
      have hpn : Deep.prefixNodes (s :: rest) (i + 1)
          = s.n + Deep.prefixNodes rest i := by
        simp [Deep.prefixNodes]
      have hs0 : (s.edges.map fun e => (e.1 + 0, e.2 + 0)) = s.edges := by simp
      have hshift : Deep.collateEdgeIndex (0 + s.n) rest
          = (Deep.collateEdgeIndex 0 rest).map fun e => (e.1 + s.n, e.2 + s.n) := by
        rw [show (0 + s.n) = s.n + 0 by omega]
        exact collateEdgeIndex_shift s.n rest 0
      simp only [Deep.collateEdgeIndex, hpe, hpn, List.get, hs0, hshift]
      rw [List.drop_append, ← List.map_drop, ← List.map_take, List.map_map]
      have hfun : ((fun e => (e.1 - (s.n + Deep.prefixNodes rest i),
              e.2 - (s.n + Deep.prefixNodes rest i)))
            ∘ fun e => (e.1 + s.n, e.2 + s.n))
          = fun e : ℕ × ℕ =>
              (e.1 - Deep.prefixNodes rest i, e.2 - Deep.prefixNodes rest i) := by
        funext e
        simp only [Function.comp_apply, Prod.mk.injEq]
        omega
      rw [hfun]
      exact collateEdgeIndex_slice rest i hi'

/-- C2: collating samples with node counts `[n₁, …, n_k]` (the
`preprocess_for_onnx` loop) yields a combined `edge_index` all of whose
entries are `< Σ nᵢ` (in particular its maximum is), and whose slice
contributed by sample `i`, with `Σ (n₁..n_{i-1})` subtracted from every
entry, equals sample `i`'s original `edge_index` exactly. -/
theorem c2_collate_offsets (ss : List Deep.OnnxSample)
    (hv : ∀ s ∈ ss, ∀ e ∈ s.edges, e.1 < s.n ∧ e.2 < s.n) :
    (∀ e ∈ Deep.collateEdgeIndex 0 ss,
        e.1 < Deep.totalNodes ss ∧ e.2 < Deep.totalNodes ss) ∧
      ∀ i (hi : i < ss.length),
        (((Deep.collateEdgeIndex 0 ss).drop (Deep.prefixEdges ss i)).take
            ((ss.get ⟨i, hi⟩).edges.length)).map
          (fun e => (e.1 - Deep.prefixNodes ss i, e.2 - Deep.prefixNodes ss i))
        = (ss.get ⟨i, hi⟩).edges := by
  constructor
  · intro e he
    have hb := collateEdgeIndex_bound ss 0 hv e he
    simpa using hb
  · intro i hi
    exact collateEdgeIndex_slice ss i hi

/-- Witness for C2 on two concrete samples (2 nodes / 1 edge and
3 nodes / 2 edges). -/
theorem c2_collate_offsets_witness :
    (∀ s ∈ [(⟨2, [(0, 1)]⟩ : Deep.OnnxSample), ⟨3, [(1, 2), (2, 0)]⟩],
        ∀ e ∈ s.edges, e.1 < s.n ∧ e.2 < s.n) ∧
      ((∀ e ∈ Deep.collateEdgeIndex 0
            [(⟨2, [(0, 1)]⟩ : Deep.OnnxSample), ⟨3, [(1, 2), (2, 0)]⟩],
          e.1 < Deep.totalNodes [⟨2, [(0, 1)]⟩, ⟨3, [(1, 2), (2, 0)]⟩]
            ∧ e.2 < Deep.totalNodes [⟨2, [(0, 1)]⟩, ⟨3, [(1, 2), (2, 0)]⟩]) ∧
        ∀ i (hi : i < ([(⟨2, [(0, 1)]⟩ : Deep.OnnxSample),
            ⟨3, [(1, 2), (2, 0)]⟩]).length),
          (((Deep.collateEdgeIndex 0
                [(⟨2, [(0, 1)]⟩ : Deep.OnnxSample), ⟨3, [(1, 2), (2, 0)]⟩]).drop
              (Deep.prefixEdges [⟨2, [(0, 1)]⟩, ⟨3, [(1, 2), (2, 0)]⟩] i)).take
              ((([(⟨2, [(0, 1)]⟩ : Deep.OnnxSample),
                  ⟨3, [(1, 2), (2, 0)]⟩]).get ⟨i, hi⟩).edges.length)).map
            (fun e =>
              (e.1 - Deep.prefixNodes [⟨2, [(0, 1)]⟩, ⟨3, [(1, 2), (2, 0)]⟩] i,
               e.2 - Deep.prefixNodes [⟨2, [(0, 1)]⟩, ⟨3, [(1, 2), (2, 0)]⟩] i))
          = (([(⟨2, [(0, 1)]⟩ : Deep.OnnxSample),
              ⟨3, [(1, 2), (2, 0)]⟩]).get ⟨i, hi⟩).edges) :=
  ⟨by decide, c2_collate_offsets [⟨2, [(0, 1)]⟩, ⟨3, [(1, 2), (2, 0)]⟩] (by decide)⟩

/-- The goal comprehension raises `KeyError` as soon as the batch contains
a sample without the key. -/
theorem goalList_error {α : Type} :
    ∀ l : List (Option α), (∃ s ∈ l, s = none) →
      Deep.goalList l = .error .keyError
  | [], h => by simp at h
  | x :: xs, h => by
      rcases x with _ | g
      · rfl
      · have hxs : ∃ s ∈ xs, s = none := by
          rcases h with ⟨s, hs, hnone⟩
          rcases List.mem_cons.mp hs with rfl | hs'
          · cases hnone
          · exact ⟨s, hs', hnone⟩
        show (Deep.goalList xs).map _ = _
        rw [goalList_error xs hxs]
        rfl

/-- C4 counterexample: a mixed batch whose first sample lacks the goal
graph is not rejected — `graph_collate_fn` tests only `batch[0]`, so it
returns a batch with the collated goal entry `None`, silently dropping the
second sample's goal graph instead of failing fast. -/
theorem c4_counterexample :
    Deep.collateGoals ([none, some 0] : List (Option ℕ)) = .ok none := rfl

/-- C4 (amended): `graph_collate_fn` keys on the first sample — when the
first sample has a goal graph and any sample lacks one, collation raises a
`KeyError` (fail fast); but when the first sample lacks one, goal graphs
carried by later samples are silently dropped (the collated goal entry is
`None`). -/
theorem c4_mixed_goal_batches {α : Type} (batch : List (Option α))
    (b0 : Option α) (rest : List (Option α)) (hb : batch = b0 :: rest) :
    (b0.isSome = true → (∃ s ∈ batch, s = none) →
        Deep.collateGoals batch = .error .keyError) ∧
      (b0 = none → Deep.collateGoals batch = .ok none) := by
  subst hb
  constructor
  · intro hsome hmix
    rcases b0 with _ | g
    · cases hsome
    · show (Deep.goalList (some g :: rest)).map some = _
      rw [goalList_error _ hmix]
      rfl
  · rintro rfl
    rfl

/-- Witness for C4's amended theorem: the mirrored mixed batch, whose
first sample does have a goal graph, raises `KeyError`. -/
theorem c4_mixed_goal_batches_witness :
    Deep.collateGoals ([some 0, none] : List (Option ℕ)) = .error .keyError :=
  (c4_mixed_goal_batches [some 0, none] (some 0) [none] rfl).1 rfl
    ⟨none, by simp, rfl⟩

/-- C5 counterexample: a checkpoint config missing the `use_depth` key —
one of the keys the claim requires a loud failure for — loads with no
error at all: `cfg.get("use_depth", True)` silently substitutes the
default, the architecture is rebuilt with `use_depth = True`, and the
weights of a depth-using model then load cleanly (shape summary
`(1, 64, 32, 128, 2·128+1)`). -/
theorem c5_counterexample :
    (⟨some 128, some true, none, some 64, some 32,
        some none⟩ : Deep.CkptConfig).use_depth = none ∧
      Deep.loadModel
          ⟨some 128, some true, none, some 64, some 32, some none⟩
          (1, 64, 32, 128, 257)
        = .ok ⟨128, true, true, 64, 32, none⟩ := by
  exact ⟨rfl, rfl⟩

/-- C5 (amended): `load_model` reconstructs the architecture from config
before loading weights, and raises `KeyError` exactly when one of
`hidden_dim`, `use_goal`, `node_emb_dim`, `edge_emb_dim` is missing; a
missing `use_depth` silently defaults to `True` and a missing `bit_input`
silently defaults to `None` (the scalar path), any resulting architecture
discrepancy surfacing only later as a weight-shape mismatch rather than an
error identifying the config key. -/
theorem c5_load_config (cfg : Deep.CkptConfig) :
    ((cfg.hidden_dim = none ∨ cfg.use_goal = none ∨ cfg.node_emb_dim = none
        ∨ cfg.edge_emb_dim = none) →
      Deep.loadModelConfig cfg = .error .keyError) ∧
    ((cfg.hidden_dim ≠ none ∧ cfg.use_goal ≠ none ∧ cfg.node_emb_dim ≠ none
        ∧ cfg.edge_emb_dim ≠ none) →
      ∃ arch, Deep.loadModelConfig cfg = .ok arch
        ∧ arch.use_depth = cfg.use_depth.getD true
        ∧ arch.bit_input = cfg.bit_input.getD none) := by
  obtain ⟨hd, ug, ud, ne, ee, bi⟩ := cfg
  constructor
  · intro h
    rcases hd with _ | hdv
    · rfl
    rcases ug with _ | ugv
    · rfl
    rcases ne with _ | nev
    · rfl
    rcases ee with _ | eev
    · rfl
    simp at h
  · rintro ⟨h1, h2, h3, h4⟩
    rcases hd with _ | hdv
    · exact absurd rfl h1
    rcases ug with _ | ugv
    · exact absurd rfl h2
    rcases ne with _ | nev
    · exact absurd rfl h3
    rcases ee with _ | eev
    · exact absurd rfl h4
    exact ⟨_, rfl, rfl, rfl⟩

/-- Witness for C5's amended theorem at a concrete config with the four
required keys present and `use_depth`/`bit_input` absent. -/
theorem c5_load_config_witness :
    ∃ arch, Deep.loadModelConfig
        ⟨some 128, some true, none, some 64, some 32, none⟩ = .ok arch
      ∧ arch.use_depth = (Option.getD (none : Option Bool) true)
      ∧ arch.bit_input = (Option.getD (none : Option (Option ℕ)) none) :=
  (c5_load_config ⟨some 128, some true, none, some 64, some 32, none⟩).2
    ⟨by simp, by simp, by simp, by simp⟩

/-- A digit is not the dash character. -/
theorem digit_ne_dash {d : Char} (hd : d.isDigit = true) : (d == '-') = false := by
  by_cases h : d = '-'
  · subst h
    exact absurd hd (by decide)
  · exact beq_eq_false_iff_ne.mpr h

/-- A digit blocks the negative-id lookbehind/lookahead (it is a word
character). -/
theorem digit_blocks {d : Char} (hd : d.isDigit = true) :
    Deep.blocksNegId d = true := by
  simp [Deep.blocksNegId, Deep.isWordChar, Char.isAlphanum, hd]

/-- Scanning a nonempty run of digits only flips the lookbehind state to
"blocked". -/
theorem hasBareNeg_digits_append :
    ∀ ds : List Char, (∀ d ∈ ds, d.isDigit = true) → ds ≠ [] →
      ∀ (l : List Char) (p : Bool),
        Deep.hasBareNeg p (ds ++ l) = Deep.hasBareNeg false l
  | [], _, hne, _, _ => absurd rfl hne
  | d :: ds, hds, _, l, p => by
      have hd : d.isDigit = true := hds d (by simp)
      rw [List.cons_append]
      simp only [Deep.hasBareNeg, digit_ne_dash hd, digit_blocks hd,
        Bool.false_and, Bool.false_or, Bool.not_true]
      rcases ds with _ | ⟨d2, ds2⟩
      · rfl
      · exact hasBareNeg_digits_append (d2 :: ds2)
          (fun x hx => hds x (by simp [hx])) (by simp) l false

/-- The substitution copies a nonempty run of digits unchanged and
continues with a blocked lookbehind. -/
theorem requoteAux_digits_append :
    ∀ ds : List Char, (∀ d ∈ ds, d.isDigit = true) → ds ≠ [] →
      ∀ (l : List Char) (p : Bool),
        Deep.requoteAux p (ds ++ l) = ds ++ Deep.requoteAux false l
  | [], _, hne, _, _ => absurd rfl hne
  | d :: ds, hds, _, l, p => by
      have hd : d.isDigit = true := hds d (by simp)
      rw [List.cons_append]
      simp only [Deep.requoteAux, digit_ne_dash hd, digit_blocks hd,
        Bool.false_and, Bool.not_true, Bool.false_eq_true, if_false,
        List.cons_append, List.cons.injEq, true_and]
      rcases ds with _ | ⟨d2, ds2⟩
      · rfl
      · exact requoteAux_digits_append (d2 :: ds2)
          (fun x hx => hds x (by simp [hx])) (by simp) l false

/-- If the input does not start with a digit, neither does the
substitution's output. -/
theorem requoteAux_takeWhile_digits (q : Bool) (l : List Char)
    (h : l.takeWhile Char.isDigit = []) :
    (Deep.requoteAux q l).takeWhile Char.isDigit = [] := by
  cases l with
  | nil => simp [Deep.requoteAux]
  | cons c t =>
    have hc : Char.isDigit c = false := by
      cases hcd : c.isDigit
      · rfl
      · rw [List.takeWhile_cons_of_pos hcd] at h
        cases h
    simp only [Deep.requoteAux]
    split
    · exact List.takeWhile_cons_of_neg (by decide)
    · exact List.takeWhile_cons_of_neg (by simp [hc])

/-- Splitting a list at the first non-`p` element: `takeWhile` keeps the
`p`-prefix, `dropWhile` starts at the failing head. -/
theorem takeWhile_append_head_neg {p : Char → Bool} :
    ∀ ds : List Char, (∀ d ∈ ds, p d = true) →
      ∀ (h : Char) (t : List Char), p h = false →
        (ds ++ h :: t).takeWhile p = ds ∧ (ds ++ h :: t).dropWhile p = h :: t
  | [], _, h, t, hh => by
      constructor
      · exact List.takeWhile_cons_of_neg (by simp [hh])
      · exact List.dropWhile_cons_of_neg (by simp [hh])
  | d :: ds, hds, h, t, hh => by
      have hd := hds d (by simp)
      obtain ⟨ih1, ih2⟩ := takeWhile_append_head_neg ds
        (fun x hx => hds x (by simp [hx])) h t hh
      constructor
      · rw [List.cons_append, List.takeWhile_cons_of_pos hd, ih1]
      · rw [List.cons_append, List.dropWhile_cons_of_pos hd, ih2]

/-- After the substitution, the text contains no bare negative-integer
token: every match of `_NEG_ID_RE` has been wrapped in quotes. -/
theorem hasBareNeg_requoteAux :
    ∀ (l : List Char) (p : Bool),
      Deep.hasBareNeg p (Deep.requoteAux p l) = false
  | [], _ => by simp [Deep.requoteAux, Deep.hasBareNeg]
  | c :: rest, p => by
      have hq1 : ('"' == '-') = false := by decide
      have hq2 : Deep.blocksNegId '"' = true := by decide
      have hq4 : Deep.blocksNegId '-' = false := by decide
      by_cases hcond : (c == '-' && p && !(rest.takeWhile Char.isDigit).isEmpty
          && Deep.nextOk (rest.dropWhile Char.isDigit)) = true
      · have hout : Deep.requoteAux p (c :: rest)
            = '"' :: '-' :: (rest.takeWhile Char.isDigit
              ++ '"' :: Deep.requoteAux false (rest.dropWhile Char.isDigit)) := by
          simp only [Deep.requoteAux, hcond, if_true]
        have hds : ∀ d ∈ rest.takeWhile Char.isDigit, d.isDigit = true :=
          fun d hd => List.mem_takeWhile_imp hd
        have hne : rest.takeWhile Char.isDigit ≠ [] := by
          intro hnil
          rw [hnil] at hcond
          simp at hcond
        rw [hout]
        simp only [Deep.hasBareNeg, hq1, hq2, hq4, Bool.false_and,
          Bool.false_or, Bool.not_true, Bool.not_false, Bool.and_false,
          Bool.true_and, Bool.false_eq_true]
        rw [hasBareNeg_digits_append (rest.takeWhile Char.isDigit) hds hne _ true]
        simp only [Deep.hasBareNeg, hq1, hq2, Bool.false_and, Bool.false_or,
          Bool.not_true]
        exact hasBareNeg_requoteAux (rest.dropWhile Char.isDigit) false
      · have hout : Deep.requoteAux p (c :: rest)
            = c :: Deep.requoteAux (!Deep.blocksNegId c) rest := by
          simp only [Deep.requoteAux, hcond, Bool.false_eq_true, if_false]
        rw [hout]
        simp only [Deep.hasBareNeg]
        rw [hasBareNeg_requoteAux rest (!Deep.blocksNegId c), Bool.or_false]
        by_cases hc : (c == '-') = true
        · by_cases hp : p = true
          · have hcdash : c = '-' := eq_of_beq hc
            subst hcdash
            subst hp
            by_cases hds0 : rest.takeWhile Char.isDigit = []
            · rw [requoteAux_takeWhile_digits _ rest hds0]
              simp
            · have hnext : Deep.nextOk (rest.dropWhile Char.isDigit) = false := by
                cases hnx : Deep.nextOk (rest.dropWhile Char.isDigit)
                · rfl
                · exfalso
                  apply hcond
                  simp [hc, hnx, List.isEmpty_eq_false.mpr hds0]
              rcases hrest2 : rest.dropWhile Char.isDigit with _ | ⟨h, t⟩
              · rw [hrest2] at hnext
                cases hnext
              · have hbh : Deep.blocksNegId h = true := by
                  rw [hrest2] at hnext
                  simpa [Deep.nextOk] using hnext
                have hhd : Char.isDigit h = false := by
                  have hw : rest.dropWhile Char.isDigit ≠ [] := by
                    rw [hrest2]
                    simp
                  have := List.head_dropWhile_not Char.isDigit rest hw
                  rwa [show (rest.dropWhile Char.isDigit).head hw = h by
                    simp only [hrest2, List.head_cons]] at this
                have hR : Deep.requoteAux (!Deep.blocksNegId '-') rest
                    = rest.takeWhile Char.isDigit
                      ++ Deep.requoteAux false (h :: t) := by
                  rw [hq4]
                  conv_lhs =>
                    rw [show rest = rest.takeWhile Char.isDigit
                        ++ rest.dropWhile Char.isDigit from
                      (List.takeWhile_append_dropWhile Char.isDigit rest).symm,
                      hrest2]
                  exact requoteAux_digits_append _
                    (fun d hd => List.mem_takeWhile_imp hd) hds0 _ _
                have hh_ne : (h == '-') = false := by
                  by_cases hhh : h = '-'
                  · subst hhh
                    rw [hq4] at hbh
                    cases hbh
                  · exact beq_eq_false_iff_ne.mpr hhh
                have hreq_h : Deep.requoteAux false (h :: t)
                    = h :: Deep.requoteAux (!Deep.blocksNegId h) t := by
                  simp only [Deep.requoteAux, hh_ne, Bool.false_and,
                    Bool.false_eq_true, if_false]
                obtain ⟨htw, hdw⟩ := takeWhile_append_head_neg
                  (rest.takeWhile Char.isDigit)
                  (fun d hd => List.mem_takeWhile_imp hd)
                  h (Deep.requoteAux (!Deep.blocksNegId h) t) hhd
                rw [hR, hreq_h, htw, hdw]
                simp [Deep.nextOk, hbh]
          · simp only [Bool.eq_false_iff.mpr hp, Bool.and_false, Bool.false_and]
        · simp only [Bool.eq_false_iff.mpr hc, Bool.false_and]
  termination_by l _ => l.length
  decreasing_by
  · simpa using Nat.lt_succ_of_le (List.dropWhile_sublist _).length_le
  · simp

/-- C9 counterexample: the claim says every input graph file is re-quoted
before structural parsing, but for the text `-5` the gnn_handler loader
passes it to the parser unchanged, and so does the RL state-graph load for
a path not containing `"merged"` — even though the text still contains a
bare negative-integer token. -/
theorem c9_counterexample :
    Deep.gnnLoadText "-5".toList = "-5".toList ∧
      Deep.rlStateLoadText "state_7.dot".toList "-5".toList = "-5".toList ∧
      Deep.hasBareNeg true "-5".toList = true := by
  refine ⟨rfl, rfl, ?_⟩
  decide

/-- C9 (amended): only some loads re-quote. The RL loader applies the
substitution when its `quote_neg` flag is set: `preprocess_sample` sets it
for the state graph exactly when the path contains `"merged"`, and always
for the goal graph; the gnn_handler loader never re-quotes. When the
substitution does run, the text handed to the structural parser contains
no bare negative-integer token (every match is wrapped in quotes). -/
theorem c9_loader_requoting (path src : List Char) :
    (Deep.containsSub "merged".toList path = true →
        Deep.rlStateLoadText path src = Deep.requote src) ∧
      (Deep.containsSub "merged".toList path = false →
        Deep.rlStateLoadText path src = src) ∧
      Deep.rlGoalLoadText src = Deep.requote src ∧
      Deep.gnnLoadText src = src ∧
      Deep.hasBareNeg true (Deep.requote src) = false := by
  refine ⟨fun h => ?_, fun h => ?_, rfl, rfl, hasBareNeg_requoteAux src true⟩
  · unfold Deep.rlStateLoadText Deep.rlLoadText
    rw [h]
    simp
  · unfold Deep.rlStateLoadText Deep.rlLoadText
    rw [h]
    simp

/-- Witness for C9's amended theorem: a "merged" state path gets the
substitution applied, and the re-quoted text has no bare negative id. -/
theorem c9_loader_requoting_witness :
    Deep.rlStateLoadText "merged_1.dot".toList "-5".toList
        = Deep.requote "-5".toList
      ∧ Deep.hasBareNeg true (Deep.requote "-5".toList) = false :=
  ⟨(c9_loader_requoting "merged_1.dot".toList "-5".toList).1 (by decide),
    (c9_loader_requoting "merged_1.dot".toList "-5".toList).2.2.2.2⟩
